import Mathlib

/-!
Verification of the video-anonymization streaming client and pipeline of the
"Sistema automatico de anonimizacion de datos sensibles" repository.

The first part embeds the frontend JavaScript (the API service module with
`processVideoWithWebSocket`, `processVideo` and `base64ToBlob`, the
`VideoProcessing` page's `handleProcess`, and `VideoUpload`'s `handleFile`)
as executable Lean definitions.  JavaScript objects are embedded as ordered
association lists of string keys and `JSValue`s; the `??` and `||` fallback
operators are embedded by `jsNullish` and `jsOr`; the platform functions
`parseInt`, `parseFloat`, `atob` and `FileReader.readAsDataURL` are embedded
by executable models of their ECMAScript / WHATWG semantics (numbers are
exact: `Int`/`ℚ` in place of IEEE doubles, with `none` standing for `NaN`).

The second part models the server-side video pipeline (frame scheduler with
reorder buffer, progress events, stats aggregation, anonymizing transform),
which is described by the specification but whose code is not part of the
sources; those definitions carry a `Modelled from the spec:` doc comment.
-/

namespace Anon

/-- A JavaScript value as it appears in the option objects and JSON messages
of the frontend: booleans, non-negative integers and strings. -/
inductive JSValue where
  | bool (b : Bool)
  | num (n : Nat)
  | str (s : String)
deriving DecidableEq

/-- JavaScript truthiness of a `JSValue` (used by the `||` operator):
`false`, `0` and the empty string are falsy. -/
def JSValue.truthy : JSValue → Bool
  | .bool b => b
  | .num n => n != 0
  | .str s => s != ""

/-- A JavaScript object, embedded as an ordered association list
(insertion order is the JSON serialization order). -/
def JSObj : Type := List (String × JSValue)

instance : DecidableEq JSObj := inferInstanceAs (DecidableEq (List (String × JSValue)))

/-- Property access `o[k]`: the first binding of key `k`, `none` standing
for JavaScript `undefined`. -/
def jsGet (o : JSObj) (k : String) : Option JSValue :=
  (o.find? (fun p => p.1 == k)).map (fun p => p.2)

/-- The JavaScript nullish-coalescing operator `v ?? d` (for values that are
either absent or a proper value). -/
def jsNullish (v : Option JSValue) (d : JSValue) : JSValue :=
  v.getD d

/-- The JavaScript or-fallback `v || d`: the default is taken when the value
is absent or falsy. -/
def jsOr (v : Option JSValue) (d : JSValue) : JSValue :=
  match v with
  | some x => if x.truthy then x else d
  | none => d

/-- ECMAScript `ToString` on the embedded values. -/
def jsToString : JSValue → String
  | .bool b => if b then "true" else "false"
  | .num n => Nat.repr n
  | .str s => s

/-- A JavaScript `File`: name, MIME type, size in bytes, and content bytes.
`size` is kept as its own field (in the browser it equals the content
length) because `handleFile` reads it without reading the content. -/
structure JSFile where
  name : String
  type : String
  size : Nat
  bytes : List Nat
deriving DecidableEq

/-- A JavaScript `Blob`: content bytes plus a MIME type. -/
structure JSBlob where
  bytes : List Nat
  type : String
deriving DecidableEq

/- ### Base64: the browser's `btoa`-style encoding used by
`FileReader.readAsDataURL`, and `atob` used by `base64ToBlob`. -/

/-- The standard base64 alphabet, sextet value to character. -/
def base64Table : List Char :=
  ['A', 'B', 'C', 'D', 'E', 'F', 'G', 'H', 'I', 'J', 'K', 'L', 'M',
   'N', 'O', 'P', 'Q', 'R', 'S', 'T', 'U', 'V', 'W', 'X', 'Y', 'Z',
   'a', 'b', 'c', 'd', 'e', 'f', 'g', 'h', 'i', 'j', 'k', 'l', 'm',
   'n', 'o', 'p', 'q', 'r', 's', 't', 'u', 'v', 'w', 'x', 'y', 'z',
   '0', '1', '2', '3', '4', '5', '6', '7', '8', '9', '+', '/']

/-- Character for a sextet value (total, with a junk default above 63). -/
def sextetToChar (n : Nat) : Char :=
  base64Table.getD n 'A'

/-- Sextet value of a base64 character. -/
def charToSextet (c : Char) : Nat :=
  base64Table.indexOf c

/-- Standard base64 encoding of a byte sequence (the encoding produced by
the browser for `FileReader.readAsDataURL`, including `=` padding). -/
def base64EncodeChars : List Nat → List Char
  | [] => []
  | [a] =>
      [sextetToChar (a / 4), sextetToChar (a % 4 * 16), '=', '=']
  | [a, b] =>
      [sextetToChar (a / 4), sextetToChar (a % 4 * 16 + b / 16),
       sextetToChar (b % 16 * 4), '=']
  | a :: b :: c :: rest =>
      sextetToChar (a / 4) :: sextetToChar (a % 4 * 16 + b / 16) ::
      sextetToChar (b % 16 * 4 + c / 64) :: sextetToChar (c % 64) ::
      base64EncodeChars rest

/-- Model of the browser's `atob` composed with per-character `charCodeAt`
(as done by `base64ToBlob`): decodes a base64 character sequence to its
byte values, consuming four characters at a time and honouring `=`
padding.  Inputs `atob` would reject decode to a junk value. -/
def base64DecodeChars : List Char → List Nat
  | c1 :: c2 :: c3 :: c4 :: rest =>
      let n1 := charToSextet c1
      let n2 := charToSextet c2
      if c3 = '=' then [n1 * 4 + n2 / 16]
      else
        let n3 := charToSextet c3
        if c4 = '=' then [n1 * 4 + n2 / 16, n2 % 16 * 16 + n3 / 4]
        else
          (n1 * 4 + n2 / 16) :: (n2 % 16 * 16 + n3 / 4) ::
          (n3 % 4 * 64 + charToSextet c4) :: base64DecodeChars rest
  | _ => []

/-- Embedding of the service module's `base64ToBlob` (api service, lines
240-250): `atob`, `charCodeAt` into a byte array, then a `Blob` with the
given MIME type. -/
def base64ToBlob (base64 : String) (mimeType : String) : JSBlob :=
  { bytes := base64DecodeChars base64.data, type := mimeType }

/- ### The WebSocket submit message (`processVideoWithWebSocket`). -/

/-- Splitting a character sequence at commas, as JavaScript
`String.prototype.split(',')` does (empty pieces preserved). -/
def splitOnComma : List Char → List (List Char)
  | [] => [[]]
  | c :: rest =>
      if c = ',' then [] :: splitOnComma rest
      else
        match splitOnComma rest with
        | [] => [[c]]
        | g :: gs => (c :: g) :: gs

/-- Model of `FileReader.readAsDataURL`: the data URL of the file's content,
`"data:<type>;base64,<base64 of the bytes>"`, as a character sequence. -/
def fileDataURL (f : JSFile) : List Char :=
  "data:".data ++ f.type.data ++ ";base64,".data ++ base64EncodeChars f.bytes

/-- The `video_data` field computed in `processVideoWithWebSocket`
(line 177): `reader.result.split(',')[1]`, removing the data-URL head. -/
def wsVideoData (f : JSFile) : String :=
  String.mk ((splitOnComma (fileDataURL f)).getD 1 [])

/-- The JSON object sent as the submit message by
`processVideoWithWebSocket` (api service, lines 179-188), given the
already-computed base64 payload, the file name and the caller's options
object.  Option fields are read under their camelCase keys with the
code's `??` / `||` fallbacks. -/
def submitPayload (base64 filename : String) (options : JSObj) : JSObj :=
  [("video_data", .str base64),
   ("filename", .str filename),
   ("detect_faces", jsNullish (jsGet options "detectFaces") (.bool true)),
   ("detect_plates", jsNullish (jsGet options "detectPlates") (.bool true)),
   ("anonymization_method", jsOr (jsGet options "method") (.str "blur")),
   ("blur_kernel_size", jsOr (jsGet options "blurKernelSize") (.num 51)),
   ("pixelate_blocks", jsOr (jsGet options "pixelateBlocks") (.num 10)),
   ("enable_preview", jsNullish (jsGet options "enablePreview") (.bool true))]

/-- The full submit message sent for a file: base64 payload extracted from
the data URL, file name, and the options object. -/
def wsSubmit (f : JSFile) (options : JSObj) : JSObj :=
  submitPayload (wsVideoData f) f.name options

/-- The options object built by `VideoProcessing.handleProcess`
(lines 102-107): snake_case detection/method keys (plus the literal kernel
and block sizes it always passes) and the camelCase `enablePreview`. -/
def handleProcessOptions (detectFace detectPlate : Bool) (method : String)
    (preview : Bool) : JSObj :=
  [("detect_faces", .bool detectFace),
   ("detect_plates", .bool detectPlate),
   ("anonymization_method", .str method),
   ("blur_kernel_size", .num 51),
   ("pixelate_blocks", .num 10),
   ("enablePreview", .bool preview)]

/- ### The WebSocket message handler (`ws.onmessage`). -/

/-- The job statistics record carried by the completion message. -/
structure JobStats where
  total_faces : Nat
  total_plates : Nat
  frames_processed : Nat
  frames_with_detections : Nat
deriving DecidableEq

/-- A parsed server-to-client message, one case per branch of the `onmessage`
dispatch on `data.type` (api service, lines 196-220): progress, the legacy
`complete` shape, the `video` completion, an error, any other `type`, and a
message whose JSON parse throws. -/
inductive WSMsg where
  | progress
  | complete
  | video (videoData : String) (stats : JobStats)
  | error (message : String)
  | unknown
  | malformed
deriving DecidableEq

/-- An observable callback invocation performed by the handler. -/
inductive WSCall where
  | onProgress
  | onCompleteResult
  | onCompleteVideo (blob : JSBlob) (stats : JobStats)
  | onError (message : String)
  | onCatchError
deriving DecidableEq

/-- The client-side WebSocket state: whether `ws.close()` has been called.
Per the WHATWG WebSocket semantics, no message event fires once the socket
has left the OPEN state. -/
structure WSState where
  closed : Bool
deriving DecidableEq

/-- One step of the `ws.onmessage` handler: on a closed socket nothing
happens; otherwise dispatch on the message type exactly as the code does
(`video` converts the payload with `base64ToBlob` and closes, `error`
invokes `onError` with the message text and closes, a parse failure lands
in the `catch` and invokes `onError`). -/
def handleMsg (s : WSState) (m : WSMsg) : WSState × List WSCall :=
  if s.closed then (s, [])
  else
    match m with
    | .progress => (s, [.onProgress])
    | .complete => (s, [.onCompleteResult])
    | .video vd st => (⟨true⟩, [.onCompleteVideo (base64ToBlob vd "video/mp4") st])
    | .error msg => (⟨true⟩, [.onError msg])
    | .unknown => (s, [])
    | .malformed => (s, [.onCatchError])

/-- Processing of a sequence of incoming messages, accumulating the callback
invocations in order. -/
def runMsgs (s : WSState) : List WSMsg → WSState × List WSCall
  | [] => (s, [])
  | m :: ms =>
      let r := handleMsg s m
      let r2 := runMsgs r.1 ms
      (r2.1, r.2 ++ r2.2)

/- ### File validation (`VideoUpload.handleFile`). -/

/-- The accepted video MIME types of `VideoUpload.handleFile` (line 48). -/
def videoValidTypes : List String :=
  ["video/mp4", "video/avi", "video/mov", "video/quicktime", "video/x-matroska"]

/-- Embedding of `VideoUpload.handleFile` (lines 46-63): reject files whose
MIME type is not accepted, then files over 500MB; otherwise the file is
passed to `onVideoSelect`.  The result is the argument of the
`onVideoSelect` call, `none` when the file is rejected. -/
def handleFile (file : JSFile) : Option JSFile :=
  if ¬ videoValidTypes.contains file.type then none
  else if file.size > 500 * 1024 * 1024 then none
  else some file

/- ### HTTP response metadata (`processVideo`). -/

/-- Whitespace as skipped by `parseInt` / `parseFloat`. -/
def isSpaceChar (c : Char) : Bool :=
  c = ' ' || c = '\t' || c = '\n' || c = '\r'

/-- Decimal digit value of a character, if any. -/
def decDigit? (c : Char) : Option Nat :=
  if '0' ≤ c && c ≤ '9' then some (c.toNat - 48) else none

/-- Hexadecimal digit value of a character, if any. -/
def hexDigit? (c : Char) : Option Nat :=
  if '0' ≤ c && c ≤ '9' then some (c.toNat - 48)
  else if 'a' ≤ c && c ≤ 'f' then some (c.toNat - 87)
  else if 'A' ≤ c && c ≤ 'F' then some (c.toNat - 55)
  else none

/-- Accumulate the longest leading digit run. -/
def parseDigitRun (dg : Char → Option Nat) (base : Nat) (acc : Nat) :
    List Char → Nat
  | [] => acc
  | c :: rest =>
      match dg c with
      | some d => parseDigitRun dg base (acc * base + d) rest
      | none => acc

/-- Parse a non-empty leading digit run; `none` when the first character is
not a digit (the `NaN` outcome). -/
def parseUnsigned (dg : Char → Option Nat) (base : Nat) :
    List Char → Option Nat
  | [] => none
  | c :: rest =>
      match dg c with
      | some d => some (parseDigitRun dg base d rest)
      | none => none

/-- Model of ECMAScript `parseInt` with the default radix: skip whitespace,
optional sign, hexadecimal on an `0x`/`0X` head and decimal otherwise,
ignoring trailing garbage; `none` stands for `NaN`. -/
def parseIntJS (s : String) : Option Int :=
  let cs := s.data.dropWhile isSpaceChar
  let sc : Int × List Char :=
    match cs with
    | '-' :: rest => (-1, rest)
    | '+' :: rest => (1, rest)
    | _ => (1, cs)
  match sc.2 with
  | '0' :: 'x' :: rest => (parseUnsigned hexDigit? 16 rest).map (fun n => sc.1 * n)
  | '0' :: 'X' :: rest => (parseUnsigned hexDigit? 16 rest).map (fun n => sc.1 * n)
  | cs2 => (parseUnsigned decDigit? 10 cs2).map (fun n => sc.1 * n)

/-- The longest leading run of decimal digits, with the remaining input. -/
def spanDigits : List Char → List Nat × List Char
  | [] => ([], [])
  | c :: rest =>
      match decDigit? c with
      | some d =>
          let r := spanDigits rest
          (d :: r.1, r.2)
      | none => ([], c :: rest)

/-- Value of a digit sequence, most significant first. -/
def digitsToNat (acc : Nat) : List Nat → Nat
  | [] => acc
  | d :: ds => digitsToNat (acc * 10 + d) ds

/-- Model of ECMAScript `parseFloat`: skip whitespace, optional sign,
decimal digits with optional fraction and exponent, ignoring trailing
garbage; the value is an exact rational in place of an IEEE double, and
`none` stands for `NaN`. -/
def parseFloatJS (s : String) : Option ℚ :=
  let cs := s.data.dropWhile isSpaceChar
  let sc : ℚ × List Char :=
    match cs with
    | '-' :: rest => (-1, rest)
    | '+' :: rest => (1, rest)
    | _ => (1, cs)
  let ip := spanDigits sc.2
  let fp : List Nat × List Char :=
    match ip.2 with
    | '.' :: rest => spanDigits rest
    | _ => ([], ip.2)
  if ip.1.isEmpty && fp.1.isEmpty then none
  else
    let mant : ℚ :=
      (digitsToNat 0 ip.1 : ℚ) + (digitsToNat 0 fp.1 : ℚ) / (10 ^ fp.1.length)
    let ex : ℚ :=
      match fp.2 with
      | 'e' :: '-' :: r2 =>
          let eds := (spanDigits r2).1
          if eds.isEmpty then 1 else ((10 : ℚ) ^ digitsToNat 0 eds)⁻¹
      | 'e' :: '+' :: r2 =>
          let eds := (spanDigits r2).1
          if eds.isEmpty then 1 else (10 : ℚ) ^ digitsToNat 0 eds
      | 'e' :: r2 =>
          let eds := (spanDigits r2).1
          if eds.isEmpty then 1 else (10 : ℚ) ^ digitsToNat 0 eds
      | 'E' :: '-' :: r2 =>
          let eds := (spanDigits r2).1
          if eds.isEmpty then 1 else ((10 : ℚ) ^ digitsToNat 0 eds)⁻¹
      | 'E' :: '+' :: r2 =>
          let eds := (spanDigits r2).1
          if eds.isEmpty then 1 else (10 : ℚ) ^ digitsToNat 0 eds
      | 'E' :: r2 =>
          let eds := (spanDigits r2).1
          if eds.isEmpty then 1 else (10 : ℚ) ^ digitsToNat 0 eds
      | _ => 1
    some (sc.1 * mant * ex)

/-- The expression `parseInt(headers[k] || 0)` of `processVideo`
(lines 146-149): the `||` fallback over the possibly-absent header string,
coerced to a string and parsed. -/
def headerIntField (h : Option String) : Option Int :=
  parseIntJS (jsToString (jsOr (h.map .str) (.num 0)))

/-- The expression `parseFloat(headers[k] || 0)` of `processVideo`
(line 145). -/
def headerFloatField (h : Option String) : Option ℚ :=
  parseFloatJS (jsToString (jsOr (h.map .str) (.num 0)))

/-- The metadata record computed by `processVideo` from the HTTP response
headers (lines 144-150).  `none` in a numeric field stands for `NaN`. -/
structure VideoMetadata where
  processingTime : Option ℚ
  totalFaces : Option Int
  totalPlates : Option Int
  framesProcessed : Option Int
  framesWithDetections : Option Int
deriving DecidableEq

/-- Embedding of the metadata extraction of `processVideo`: each field comes
from its response header. -/
def processVideoMetadata (headers : String → Option String) : VideoMetadata :=
  { processingTime := headerFloatField (headers "x-processing-time"),
    totalFaces := headerIntField (headers "x-total-faces"),
    totalPlates := headerIntField (headers "x-total-plates"),
    framesProcessed := headerIntField (headers "x-frames-processed"),
    framesWithDetections := headerIntField (headers "x-frames-with-detections") }

/-- Headers of a response carrying an empty `x-total-faces` value and
nothing else (used to separate the code's `|| 0` fallback from a bare
integer parse). -/
def emptyFacesHeaders : String → Option String :=
  fun k => if k = "x-total-faces" then some "" else none

/- ### The server-side pipeline, modelled from the specification.
The FrameScheduler, ProgressReporter, StatsAggregator and
AnonymizingTransform run on the server; their code is not among the
sources, so they are modelled from the specification's component design. -/

/-- Modelled from the spec: the state of the FrameScheduler's reorder
buffer (§4.2): the index the sink expects next, the set of indices of
frames that completed detection+transform but have not been sunk, and the
sequence of indices already delivered to FrameSink. -/
structure SchedState where
  nextIndex : Nat
  buffer : Finset Nat
  sunk : List Nat
deriving DecidableEq

/-- Modelled from the spec: the reorder buffer's release loop — while the
frame the sink expects next is in the buffer, remove it and deliver it to
FrameSink.  Written with explicit fuel (one unit per buffered frame) to
make termination structural. -/
def emitLoop : Nat → SchedState → SchedState
  | 0, s => s
  | fuel + 1, s =>
      if s.nextIndex ∈ s.buffer then
        emitLoop fuel
          { nextIndex := s.nextIndex + 1,
            buffer := s.buffer.erase s.nextIndex,
            sunk := s.sunk ++ [s.nextIndex] }
      else s

/-- Modelled from the spec: a worker completes the frame with index `i`;
the result enters the reorder buffer, which then releases every ready
frame in index order. -/
def completeFrame (s : SchedState) (i : Nat) : SchedState :=
  let s1 : SchedState := { s with buffer := insert i s.buffer }
  emitLoop s1.buffer.card s1

/-- Modelled from the spec: a whole scheduler run over a completion
schedule — the order in which the P workers happen to finish the frames.
Any parallelism level and any detection-latency variance is captured by
the choice of this order. -/
def runSched (order : List Nat) : SchedState :=
  order.foldl completeFrame ⟨0, ∅, []⟩

/-- Invariant of the scheduler relative to the set `done` of frame indices
whose workers have completed: the sunk sequence is exactly the initial
segment below `nextIndex`, the buffer holds precisely the completed but
not yet sunk indices, every sunk index was completed, and the next
expected frame is still outstanding. -/
def SchedInv (done : Finset Nat) (s : SchedState) : Prop :=
  s.sunk = List.range s.nextIndex ∧
  s.buffer = done \ Finset.range s.nextIndex ∧
  Finset.range s.nextIndex ⊆ done ∧
  s.nextIndex ∉ done

/-- Modelled from the spec: the per-frame detection outcome after
confidence and class filtering — the counts entering the progress event
for that frame (§4.2, §4.4). -/
structure FrameDet where
  faces : Nat
  plates : Nat
deriving DecidableEq

/-- Modelled from the spec: a progress event (§3), with the exact rational
`progress_percent` in place of a float. -/
structure ProgressEvent where
  frame_index : Nat
  faces_in_frame : Nat
  plates_in_frame : Nat
  progress_percent : ℚ
deriving DecidableEq

/-- Modelled from the spec: the percentage reported after frame `i` of `n`
completes — the fraction of frames processed so far. -/
def progressPercent (i n : Nat) : ℚ :=
  100 * ((i : ℚ) + 1) / n

/-- The progress event emitted when frame `i` of `n` is sunk. -/
def mkProgressEvent (i n : Nat) (fd : FrameDet) : ProgressEvent :=
  { frame_index := i,
    faces_in_frame := fd.faces,
    plates_in_frame := fd.plates,
    progress_percent := progressPercent i n }

/-- Progress events for the frames `fs`, the first of which has index `i`,
out of `n` total frames. -/
def jobEventsFrom (n : Nat) : Nat → List FrameDet → List ProgressEvent
  | _, [] => []
  | i, fd :: rest => mkProgressEvent i n fd :: jobEventsFrom n (i + 1) rest

/-- Modelled from the spec: the ProgressReporter's event sequence for a
job that runs to successful completion — one event per frame, in sink
order (§4.2).  An aborted job's event sequence is a proper initial
segment of this one. -/
def jobEvents (frames : List FrameDet) : List ProgressEvent :=
  jobEventsFrom frames.length 0 frames

/-- Modelled from the spec: the StatsAggregator's accumulation step — as
each frame is sunk its counts are added to the job totals (§4.4). -/
def statsStep (s : JobStats) (fd : FrameDet) : JobStats :=
  { total_faces := s.total_faces + fd.faces,
    total_plates := s.total_plates + fd.plates,
    frames_processed := s.frames_processed + 1,
    frames_with_detections :=
      s.frames_with_detections + (if 0 < fd.faces + fd.plates then 1 else 0) }

/-- Modelled from the spec: the final stats of a successfully completed
job, read once at completion. -/
def jobStats (frames : List FrameDet) : JobStats :=
  frames.foldl statsStep ⟨0, 0, 0, 0⟩

/- ### AnonymizingTransform, modelled from the specification (§4.3). -/

/-- A bounding box `(x, y, w, h)` in pixel coordinates. -/
structure BBox where
  x : Nat
  y : Nat
  w : Nat
  h : Nat
deriving DecidableEq

/-- Modelled from the spec: a frame — dimensions plus the pixel buffer,
one intensity value per coordinate. -/
structure Frame where
  width : Nat
  height : Nat
  pix : Nat → Nat → Nat

/-- The three anonymization methods. -/
inductive AnonymMethod where
  | blur
  | pixelate
  | mask
deriving DecidableEq

/-- Membership of the pixel `(px, py)` in the box `b` clamped to a
`wd × ht` frame. -/
def inClampedBox (wd ht : Nat) (b : BBox) (px py : Nat) : Bool :=
  decide (b.x ≤ px) && decide (px < min (b.x + b.w) wd) &&
  decide (b.y ≤ py) && decide (py < min (b.y + b.h) ht)

/-- The input pixels of the clamped box region (used by the blur model). -/
def boxPixelList (fr : Frame) (b : BBox) : List Nat :=
  (List.range fr.width).flatMap fun px =>
    (List.range fr.height).filterMap fun py =>
      if inClampedBox fr.width fr.height b px py then some (fr.pix px py)
      else none

/-- Modelled from the spec: the redacted value of a pixel inside the box —
blur averages the box's input region, pixelate samples the corner of the
pixel's block on a `blocks × blocks` grid (nearest-neighbour), mask fills
with a solid colour. -/
def methodPixel (m : AnonymMethod) (blocks : Nat) (fr : Frame) (b : BBox)
    (px py : Nat) : Nat :=
  match m with
  | .blur =>
      let ps := boxPixelList fr b
      ps.sum / ps.length
  | .pixelate =>
      let bw := max 1 (b.w / blocks)
      let bh := max 1 (b.h / blocks)
      fr.pix (b.x + (px - b.x) / bw * bw) (b.y + (py - b.y) / bh * bh)
  | .mask => 0

/-- Modelled from the spec: apply the redaction for a single detection —
pixels inside the clamped box are replaced, all others are passed through
unchanged. -/
def applyOne (m : AnonymMethod) (blocks : Nat) (fr : Frame) (b : BBox) : Frame :=
  { width := fr.width,
    height := fr.height,
    pix := fun px py =>
      if inClampedBox fr.width fr.height b px py then methodPixel m blocks fr b px py
      else fr.pix px py }

/-- Modelled from the spec: the AnonymizingTransform — the detections'
boxes are applied in detection-list order, later boxes over earlier
ones. -/
def anonymizeFrame (m : AnonymMethod) (blocks : Nat) (fr : Frame)
    (boxes : List BBox) : Frame :=
  boxes.foldl (applyOne m blocks) fr

/-! ## Theorems -/

/-- C1: The submit message is independent of the user's selected classes and
anonymization method.  The options object built by `handleProcess` carries
them under snake_case keys, while `processVideoWithWebSocket` reads only the
camelCase keys `detectFaces`, `detectPlates`, `method`, `blurKernelSize`,
`pixelateBlocks`, so those lookups miss and the defaults `true`, `true`,
`"blur"`, `51`, `10` are sent; only `enable_preview` (read from the
camelCase key `enablePreview`, which `handleProcess` does use) reflects the
caller's choice. -/
theorem wsSubmitIgnoresHandleProcessChoices
    (b64 fn : String) (f1 p1 f2 p2 : Bool) (m1 m2 : String) (ep : Bool) :
    submitPayload b64 fn (handleProcessOptions f1 p1 m1 ep)
        = submitPayload b64 fn (handleProcessOptions f2 p2 m2 ep) ∧
    jsGet (submitPayload b64 fn (handleProcessOptions f1 p1 m1 ep))
        "detect_faces" = some (.bool true) ∧
    jsGet (submitPayload b64 fn (handleProcessOptions f1 p1 m1 ep))
        "detect_plates" = some (.bool true) ∧
    jsGet (submitPayload b64 fn (handleProcessOptions f1 p1 m1 ep))
        "anonymization_method" = some (.str "blur") ∧
    jsGet (submitPayload b64 fn (handleProcessOptions f1 p1 m1 ep))
        "blur_kernel_size" = some (.num 51) ∧
    jsGet (submitPayload b64 fn (handleProcessOptions f1 p1 m1 ep))
        "pixelate_blocks" = some (.num 10) ∧
    jsGet (submitPayload b64 fn (handleProcessOptions f1 p1 m1 ep))
        "enable_preview" = some (.bool ep) :=
  ⟨rfl, rfl, rfl, rfl, rfl, rfl, rfl⟩

/-- C8: `handleFile` rejects (and never forwards to `onVideoSelect`) every
file whose MIME type is not an accepted video type or whose size exceeds
500MB, and forwards every file passing both checks. -/
theorem handleFileSpec (f : JSFile) :
    ((f.type ∉ videoValidTypes ∨ 500 * 1024 * 1024 < f.size) →
        handleFile f = none) ∧
    (f.type ∈ videoValidTypes ∧ f.size ≤ 500 * 1024 * 1024 →
        handleFile f = some f) := by
  constructor
  · rintro (h | h)
    · have hc : ¬ (videoValidTypes.contains f.type = true) := by simpa using h
      simp only [handleFile]
      rw [if_pos hc]
    · by_cases hm : f.type ∈ videoValidTypes
      · have hc : videoValidTypes.contains f.type = true := by simpa using hm
        simp only [handleFile, hc]
        rw [if_neg (by simp), if_pos h]
      · have hc : ¬ (videoValidTypes.contains f.type = true) := by simpa using hm
        simp only [handleFile]
        rw [if_pos hc]
  · rintro ⟨h1, h2⟩
    have hc : videoValidTypes.contains f.type = true := by simpa using h1
    simp only [handleFile, hc]
    rw [if_neg (by simp), if_neg (by omega)]

/-- C8 witness: a `text/plain` file is rejected; a small `video/mp4` file is
forwarded unchanged. -/
theorem handleFileSpecWitness :
    (("text/plain" : String) ∉ videoValidTypes ∨
        500 * 1024 * 1024 < (100 : Nat)) ∧
    handleFile ⟨"b.txt", "text/plain", 100, []⟩ = none ∧
    (("video/mp4" : String) ∈ videoValidTypes ∧ (100 : Nat) ≤ 500 * 1024 * 1024) ∧
    handleFile ⟨"a.mp4", "video/mp4", 100, [1]⟩
        = some ⟨"a.mp4", "video/mp4", 100, [1]⟩ :=
  ⟨Or.inl (by decide),
   (handleFileSpec ⟨"b.txt", "text/plain", 100, []⟩).1 (Or.inl (by decide)),
   ⟨by decide, by decide⟩,
   (handleFileSpec ⟨"a.mp4", "video/mp4", 100, [1]⟩).2 ⟨by decide, by decide⟩⟩

/-- A sextet character is an element of the base64 alphabet or the junk
default `A`. -/
theorem sextetToChar_mem_or (n : Nat) :
    sextetToChar n ∈ base64Table ∨ sextetToChar n = 'A' := by
  unfold sextetToChar
  by_cases h : n < base64Table.length
  · left
    rw [List.getD_eq_getElem base64Table 'A' h]
    exact List.getElem_mem h
  · right
    exact List.getD_eq_default base64Table 'A' (by omega)

/-- No sextet character is a comma. -/
theorem sextetToChar_ne_comma (n : Nat) : sextetToChar n ≠ ',' := by
  rcases sextetToChar_mem_or n with h | h
  · intro e
    rw [e] at h
    revert h
    decide
  · rw [h]
    decide

/-- No sextet character is the padding character. -/
theorem sextetToChar_ne_pad (n : Nat) : sextetToChar n ≠ '=' := by
  rcases sextetToChar_mem_or n with h | h
  · intro e
    rw [e] at h
    revert h
    decide
  · rw [h]
    decide

/-- The base64 encoding of a byte sequence never contains a comma. -/
theorem comma_not_mem_base64 :
    ∀ bytes : List Nat, ',' ∉ base64EncodeChars bytes
  | [] => List.not_mem_nil _
  | [_] => by
      simp only [base64EncodeChars, List.mem_cons, List.not_mem_nil, or_false]
      push_neg
      exact ⟨fun e => sextetToChar_ne_comma _ e.symm,
             fun e => sextetToChar_ne_comma _ e.symm, by decide, by decide⟩
  | [_, _] => by
      simp only [base64EncodeChars, List.mem_cons, List.not_mem_nil, or_false]
      push_neg
      exact ⟨fun e => sextetToChar_ne_comma _ e.symm,
             fun e => sextetToChar_ne_comma _ e.symm,
             fun e => sextetToChar_ne_comma _ e.symm, by decide⟩
  | _ :: _ :: _ :: rest => by
      simp only [base64EncodeChars, List.mem_cons]
      push_neg
      exact ⟨fun e => sextetToChar_ne_comma _ e.symm,
             fun e => sextetToChar_ne_comma _ e.symm,
             fun e => sextetToChar_ne_comma _ e.symm,
             fun e => sextetToChar_ne_comma _ e.symm,
             comma_not_mem_base64 rest⟩

/-- Splitting a comma-free sequence yields the single whole piece. -/
theorem splitOnComma_no_comma (ys : List Char) (h : ',' ∉ ys) :
    splitOnComma ys = [ys] := by
  induction ys with
  | nil => rfl
  | cons c rest ih =>
      have hc : ¬ (c = ',') := fun e => h (by rw [e]; exact List.mem_cons_self _ _)
      have hr : ',' ∉ rest := fun m => h (List.mem_cons_of_mem _ m)
      simp [splitOnComma, hc, ih hr]

/-- Splitting around the first comma yields the comma-free head as the
first piece. -/
theorem splitOnComma_append (xs ys : List Char) (h : ',' ∉ xs) :
    splitOnComma (xs ++ ',' :: ys) = xs :: splitOnComma ys := by
  induction xs with
  | nil => simp [splitOnComma]
  | cons c rest ih =>
      have hc : ¬ (c = ',') := fun e => h (by rw [e]; exact List.mem_cons_self _ _)
      have hr : ',' ∉ rest := fun m => h (List.mem_cons_of_mem _ m)
      simp [splitOnComma, hc, ih hr]

/-- The `video_data` computation recovers exactly the base64 encoding of the
file's bytes whenever the MIME type contains no comma: the split of the
data URL at commas has the base64 payload as its second piece. -/
theorem wsVideoData_eq (f : JSFile) (h : ',' ∉ f.type.data) :
    wsVideoData f = String.mk (base64EncodeChars f.bytes) := by
  have hurl : fileDataURL f
      = ("data:".data ++ f.type.data ++ ";base64".data)
          ++ ',' :: base64EncodeChars f.bytes := by
    show "data:".data ++ f.type.data ++ ";base64,".data ++ base64EncodeChars f.bytes = _
    have hb : (";base64,".data : List Char) = ";base64".data ++ [','] := by decide
    rw [hb]
    simp [List.append_assoc]
  have hx : ',' ∉ ("data:".data ++ f.type.data ++ ";base64".data) := by
    intro hm
    rcases List.mem_append.mp hm with hm | hm
    · rcases List.mem_append.mp hm with hm | hm
      · revert hm; decide
      · exact h hm
    · revert hm; decide
  unfold wsVideoData
  rw [hurl, splitOnComma_append _ _ hx,
      splitOnComma_no_comma _ (comma_not_mem_base64 f.bytes)]
  rfl

/-- C6: The WebSocket submit message has exactly the eight fields
`video_data`, `filename`, `detect_faces`, `detect_plates`,
`anonymization_method`, `blur_kernel_size`, `pixelate_blocks`,
`enable_preview`, in that order and with no others; `video_data` is the
file content's base64 encoding with the data-URL head removed, and
`filename` is the file's name. -/
theorem wsSubmitMessageShape (f : JSFile) (opts : JSObj) (h : ',' ∉ f.type.data) :
    (wsSubmit f opts).map Prod.fst
        = ["video_data", "filename", "detect_faces", "detect_plates",
           "anonymization_method", "blur_kernel_size", "pixelate_blocks",
           "enable_preview"] ∧
    jsGet (wsSubmit f opts) "video_data"
        = some (.str (String.mk (base64EncodeChars f.bytes))) ∧
    jsGet (wsSubmit f opts) "filename" = some (.str f.name) := by
  refine ⟨rfl, ?_, rfl⟩
  show some (JSValue.str (wsVideoData f)) = _
  rw [wsVideoData_eq f h]

/-- C6 witness: the submit message for a concrete MP4 file. -/
theorem wsSubmitMessageShapeWitness :
    (',' ∉ ("video/mp4" : String).data) ∧
    jsGet (wsSubmit ⟨"clip.mp4", "video/mp4", 3, [77, 0, 255]⟩ []) "video_data"
        = some (.str (String.mk (base64EncodeChars [77, 0, 255]))) :=
  ⟨by decide,
   (wsSubmitMessageShape ⟨"clip.mp4", "video/mp4", 3, [77, 0, 255]⟩ []
      (by decide)).2.1⟩

/-- Decoding a sextet character recovers the sextet. -/
theorem charToSextet_sextetToChar :
    ∀ n, n < 64 → charToSextet (sextetToChar n) = n := by decide

/-- Decoding inverts encoding on byte sequences. -/
theorem base64_roundtrip :
    ∀ bytes : List Nat, (∀ x ∈ bytes, x < 256) →
      base64DecodeChars (base64EncodeChars bytes) = bytes
  | [], _ => rfl
  | [a], h => by
      have ha : a < 256 := h a (by simp)
      have e1 := charToSextet_sextetToChar (a / 4) (by omega)
      have e2 := charToSextet_sextetToChar (a % 4 * 16) (by omega)
      simp only [base64EncodeChars, base64DecodeChars, reduceIte, e1, e2,
                 List.cons.injEq, and_true]
      omega
  | [a, b], h => by
      have ha : a < 256 := h a (by simp)
      have hb : b < 256 := h b (by simp)
      have e1 := charToSextet_sextetToChar (a / 4) (by omega)
      have e2 := charToSextet_sextetToChar (a % 4 * 16 + b / 16) (by omega)
      have e3 := charToSextet_sextetToChar (b % 16 * 4) (by omega)
      simp only [base64EncodeChars, base64DecodeChars,
                 if_neg (sextetToChar_ne_pad (b % 16 * 4)), reduceIte, e1, e2, e3,
                 List.cons.injEq, and_true]
      constructor
      · omega
      · omega
  | a :: b :: c :: rest, h => by
      have ha : a < 256 := h a (by simp)
      have hb : b < 256 := h b (by simp)
      have hc : c < 256 := h c (by simp)
      have ih := base64_roundtrip rest (fun x hx => h x (by simp [hx]))
      have e1 := charToSextet_sextetToChar (a / 4) (by omega)
      have e2 := charToSextet_sextetToChar (a % 4 * 16 + b / 16) (by omega)
      have e3 := charToSextet_sextetToChar (b % 16 * 4 + c / 64) (by omega)
      have e4 := charToSextet_sextetToChar (c % 64) (by omega)
      simp only [base64EncodeChars, base64DecodeChars,
                 if_neg (sextetToChar_ne_pad (b % 16 * 4 + c / 64)),
                 if_neg (sextetToChar_ne_pad (c % 64)), e1, e2, e3, e4, ih,
                 List.cons.injEq, and_true]
      refine ⟨?_, ?_, ?_⟩ <;> omega

/-- C10: `base64ToBlob` applied to the standard base64 encoding of any byte
sequence yields a blob whose content is exactly that byte sequence — the
client recovers the completion message's video bytes losslessly. -/
theorem base64ToBlobRoundtrip (bytes : List Nat) (mime : String)
    (h : ∀ x ∈ bytes, x < 256) :
    (base64ToBlob (String.mk (base64EncodeChars bytes)) mime).bytes = bytes := by
  show base64DecodeChars (String.mk (base64EncodeChars bytes)).data = bytes
  exact base64_roundtrip bytes h

/-- C10 witness: a concrete four-byte payload survives the round trip. -/
theorem base64ToBlobRoundtripWitness :
    (∀ x ∈ [77, 0, 255, 16], x < 256) ∧
    (base64ToBlob (String.mk (base64EncodeChars [77, 0, 255, 16]))
        "video/mp4").bytes = [77, 0, 255, 16] :=
  ⟨by decide, base64ToBlobRoundtrip [77, 0, 255, 16] "video/mp4" (by decide)⟩

/-- Processing a concatenation of message batches: states thread through and
the call traces concatenate. -/
theorem runMsgs_append (s : WSState) (xs ys : List WSMsg) :
    runMsgs s (xs ++ ys)
      = ((runMsgs (runMsgs s xs).1 ys).1,
         (runMsgs s xs).2 ++ (runMsgs (runMsgs s xs).1 ys).2) := by
  induction xs generalizing s with
  | nil => simp [runMsgs]
  | cons m ms ih => simp [runMsgs, ih, List.append_assoc]

/-- On a closed socket no message is handled and no callback fires. -/
theorem runMsgs_closed (ms : List WSMsg) : runMsgs ⟨true⟩ ms = (⟨true⟩, []) := by
  induction ms with
  | nil => rfl
  | cons m ms ih => simp [runMsgs, handleMsg, ih]

/-- C7: Once the handler processes a message of type `error` (the socket
still being open at that point), `onError` fires exactly once with that
message's text, the socket is closed, and no later message — in particular
no completion — produces any callback for the rest of the session. -/
theorem wsErrorTerminal (ms1 ms2 : List WSMsg) (e : String)
    (h : (runMsgs ⟨false⟩ ms1).1.closed = false) :
    (runMsgs ⟨false⟩ (ms1 ++ WSMsg.error e :: ms2)).2
        = (runMsgs ⟨false⟩ ms1).2 ++ [WSCall.onError e] ∧
    (runMsgs ⟨false⟩ (ms1 ++ WSMsg.error e :: ms2)).1.closed = true := by
  have hstate : (runMsgs ⟨false⟩ ms1).1 = ⟨false⟩ := by
    conv_rhs => rw [← h]
  have h2 : runMsgs ⟨false⟩ (WSMsg.error e :: ms2) = (⟨true⟩, [WSCall.onError e]) := by
    simp [runMsgs, handleMsg, runMsgs_closed]
  rw [runMsgs_append, hstate, h2]
  exact ⟨rfl, rfl⟩

/-- C7 witness: an error message followed by a `video` completion attempt —
only the error callback fires and the socket ends closed. -/
theorem wsErrorTerminalWitness :
    (runMsgs ⟨false⟩ ([] : List WSMsg)).1.closed = false ∧
    ((runMsgs ⟨false⟩
        (([] : List WSMsg) ++ WSMsg.error "boom"
            :: [WSMsg.video "TUFOTw==" ⟨1, 2, 3, 4⟩])).2
        = (runMsgs ⟨false⟩ ([] : List WSMsg)).2 ++ [WSCall.onError "boom"] ∧
     (runMsgs ⟨false⟩
        (([] : List WSMsg) ++ WSMsg.error "boom"
            :: [WSMsg.video "TUFOTw==" ⟨1, 2, 3, 4⟩])).1.closed = true) :=
  ⟨rfl, wsErrorTerminal [] [WSMsg.video "TUFOTw==" ⟨1, 2, 3, 4⟩] "boom" rfl⟩

/-- The `parseInt(h || 0)` composite in terms of the header value: `0` for
an absent or empty header, the integer parse of the value otherwise. -/
theorem headerIntField_eq (h : Option String) :
    headerIntField h
      = match h with
        | none => some 0
        | some s => if s = "" then some 0 else parseIntJS s := by
  cases h with
  | none => decide
  | some s =>
      by_cases hs : s = ""
      · subst hs; decide
      · have ht : ((s != "") = true) := by simpa [bne_iff_ne] using hs
        simp [headerIntField, jsOr, JSValue.truthy, jsToString, ht, hs]

/-- The float parse of the canonical string `"0"` is `0`. -/
theorem parseFloatJS_zero : parseFloatJS "0" = some 0 := by
  have h : parseFloatJS "0"
      = some (1 * ((((0 : Nat)) : ℚ) + (((0 : Nat)) : ℚ) / 10 ^ (0 : Nat)) * 1) := rfl
  rw [h]
  norm_num

/-- The `parseFloat(h || 0)` composite in terms of the header value. -/
theorem headerFloatField_eq (h : Option String) :
    headerFloatField h
      = match h with
        | none => some 0
        | some s => if s = "" then some 0 else parseFloatJS s := by
  cases h with
  | none => exact parseFloatJS_zero
  | some s =>
      by_cases hs : s = ""
      · subst hs
        exact parseFloatJS_zero
      · have ht : ((s != "") = true) := by simpa [bne_iff_ne] using hs
        simp [headerFloatField, jsOr, JSValue.truthy, jsToString, ht, hs]

/-- C9 (amended): each metadata field of `processVideo` is the numeric parse
of its response header — `x-total-faces`, `x-total-plates`,
`x-frames-processed`, `x-frames-with-detections` via `parseInt` and
`x-processing-time` via `parseFloat` — defaulting to `0` when the header is
absent or its value is the empty string (both hit the code's `|| 0`
fallback). -/
theorem processVideoMetadataSpec (headers : String → Option String) :
    ((processVideoMetadata headers).totalFaces
        = match headers "x-total-faces" with
          | none => some 0
          | some s => if s = "" then some 0 else parseIntJS s) ∧
    ((processVideoMetadata headers).totalPlates
        = match headers "x-total-plates" with
          | none => some 0
          | some s => if s = "" then some 0 else parseIntJS s) ∧
    ((processVideoMetadata headers).framesProcessed
        = match headers "x-frames-processed" with
          | none => some 0
          | some s => if s = "" then some 0 else parseIntJS s) ∧
    ((processVideoMetadata headers).framesWithDetections
        = match headers "x-frames-with-detections" with
          | none => some 0
          | some s => if s = "" then some 0 else parseIntJS s) ∧
    ((processVideoMetadata headers).processingTime
        = match headers "x-processing-time" with
          | none => some 0
          | some s => if s = "" then some 0 else parseFloatJS s) :=
  ⟨headerIntField_eq (headers "x-total-faces"),
   headerIntField_eq (headers "x-total-plates"),
   headerIntField_eq (headers "x-frames-processed"),
   headerIntField_eq (headers "x-frames-with-detections"),
   headerFloatField_eq (headers "x-processing-time")⟩

/-- C9 counterexample: on a response whose `x-total-faces` header is present
with the empty value, the code yields `0` while the integer parse of that
header value is `NaN`; the metadata field therefore does not equal the
integer parse of the header. -/
theorem processVideoMetadataEmptyHeader :
    (processVideoMetadata emptyFacesHeaders).totalFaces ≠ parseIntJS "" ∧
    (processVideoMetadata emptyFacesHeaders).totalFaces = some 0 ∧
    emptyFacesHeaders "x-total-faces" = some "" ∧
    parseIntJS "" = none := by
  refine ⟨?_, by decide, by decide, by decide⟩
  decide

/-- The face counts carried by a job's progress events are the per-frame
face counts. -/
theorem jobEventsFrom_map_faces (n : Nat) :
    ∀ (i : Nat) (fs : List FrameDet),
      (jobEventsFrom n i fs).map (fun e => e.faces_in_frame)
        = fs.map (fun fd => fd.faces)
  | _, [] => rfl
  | i, fd :: rest => by
      simp [jobEventsFrom, mkProgressEvent, jobEventsFrom_map_faces n (i + 1) rest]

/-- The plate counts carried by a job's progress events are the per-frame
plate counts. -/
theorem jobEventsFrom_map_plates (n : Nat) :
    ∀ (i : Nat) (fs : List FrameDet),
      (jobEventsFrom n i fs).map (fun e => e.plates_in_frame)
        = fs.map (fun fd => fd.plates)
  | _, [] => rfl
  | i, fd :: rest => by
      simp [jobEventsFrom, mkProgressEvent, jobEventsFrom_map_plates n (i + 1) rest]

/-- The aggregator's running face total adds the frames' face counts. -/
theorem foldl_statsStep_faces :
    ∀ (fs : List FrameDet) (s : JobStats),
      (fs.foldl statsStep s).total_faces
        = s.total_faces + (fs.map (fun fd => fd.faces)).sum
  | [], s => by simp
  | fd :: rest, s => by
      simp [List.foldl_cons, foldl_statsStep_faces rest, statsStep]
      omega

/-- The aggregator's running plate total adds the frames' plate counts. -/
theorem foldl_statsStep_plates :
    ∀ (fs : List FrameDet) (s : JobStats),
      (fs.foldl statsStep s).total_plates
        = s.total_plates + (fs.map (fun fd => fd.plates)).sum
  | [], s => by simp
  | fd :: rest, s => by
      simp [List.foldl_cons, foldl_statsStep_plates rest, statsStep]
      omega

/-- C3: For every job that runs to successful completion, the final
`stats.total_faces` equals the sum of `faces_in_frame` over all progress
events emitted for the job, and `stats.total_plates` equals the sum of
`plates_in_frame` over the same events. -/
theorem statsMatchProgressEvents (frames : List FrameDet) :
    (jobStats frames).total_faces
        = ((jobEvents frames).map (fun e => e.faces_in_frame)).sum ∧
    (jobStats frames).total_plates
        = ((jobEvents frames).map (fun e => e.plates_in_frame)).sum := by
  unfold jobStats jobEvents
  rw [jobEventsFrom_map_faces, jobEventsFrom_map_plates,
      foldl_statsStep_faces, foldl_statsStep_plates]
  simp

/-- C5: For each anonymization method, every pixel strictly outside every
clamped bounding box of the supplied detections is unchanged by the
transform. -/
theorem anonymizeOutsideBoxes (m : AnonymMethod) (blocks px py : Nat) :
    ∀ (boxes : List BBox) (fr : Frame),
      (∀ b ∈ boxes, inClampedBox fr.width fr.height b px py = false) →
      (anonymizeFrame m blocks fr boxes).pix px py = fr.pix px py
  | [], fr, _ => rfl
  | b :: bs, fr, h => by
      have hb := h b (List.mem_cons_self b bs)
      have hrest : ∀ b2 ∈ bs,
          inClampedBox (applyOne m blocks fr b).width
            (applyOne m blocks fr b).height b2 px py = false :=
        fun b2 hb2 => h b2 (List.mem_cons_of_mem _ hb2)
      have ih := anonymizeOutsideBoxes m blocks px py bs (applyOne m blocks fr b) hrest
      show (anonymizeFrame m blocks (applyOne m blocks fr b) bs).pix px py = fr.pix px py
      rw [ih]
      show (if inClampedBox fr.width fr.height b px py = true
            then methodPixel m blocks fr b px py else fr.pix px py) = fr.pix px py
      rw [hb]
      simp

/-- C5 witness: a masked 2-by-2 box in a constant 4-by-4 frame leaves the
pixel at (3, 3) untouched. -/
theorem anonymizeOutsideBoxesWitness :
    (∀ b ∈ [(⟨0, 0, 2, 2⟩ : BBox)],
        inClampedBox (Frame.mk 4 4 (fun _ _ => 7)).width
          (Frame.mk 4 4 (fun _ _ => 7)).height b 3 3 = false) ∧
    (anonymizeFrame .mask 10 (Frame.mk 4 4 (fun _ _ => 7)) [⟨0, 0, 2, 2⟩]).pix 3 3
        = (Frame.mk 4 4 (fun _ _ => 7)).pix 3 3 :=
  ⟨by decide,
   anonymizeOutsideBoxes .mask 10 3 3 [⟨0, 0, 2, 2⟩]
     (Frame.mk 4 4 (fun _ _ => 7)) (by decide)⟩

/-- The reported percentage is non-decreasing from one frame to the next. -/
theorem progressPercent_le_succ (i n : Nat) :
    progressPercent i n ≤ progressPercent (i + 1) n := by
  unfold progressPercent
  rcases Nat.eq_zero_or_pos n with hn | hn
  · subst hn
    simp
  · have hn' : (0 : ℚ) < n := by exact_mod_cast hn
    rw [div_le_div_iff₀ hn' hn']
    push_cast
    nlinarith [hn']

/-- The reported percentage hits 100 exactly at the last frame. -/
theorem progressPercent_eq_100 (i n : Nat) (hn : 0 < n) :
    progressPercent i n = 100 ↔ i + 1 = n := by
  unfold progressPercent
  have hn' : ((n : ℚ)) ≠ 0 := by
    exact_mod_cast hn.ne'
  rw [div_eq_iff hn']
  constructor
  · intro hh
    have h2 : ((i : ℚ) + 1) = n :=
      mul_left_cancel₀ (by norm_num : (100 : ℚ) ≠ 0) hh
    exact_mod_cast h2
  · intro hh
    have h2 : ((i : ℚ) + 1) = n := by exact_mod_cast hh
    rw [h2]

/-- The progress event percentages are monotonically non-decreasing. -/
theorem jobEventsFrom_chain (n : Nat) :
    ∀ (i : Nat) (fs : List FrameDet),
      List.Chain' (fun a b => a.progress_percent ≤ b.progress_percent)
        (jobEventsFrom n i fs)
  | _, [] => List.chain'_nil
  | _, [_] => List.chain'_singleton _
  | i, fd :: fd2 :: rest => by
      show List.Chain' _ (mkProgressEvent i n fd :: mkProgressEvent (i + 1) n fd2
            :: jobEventsFrom n (i + 2) rest)
      exact List.Chain'.cons (progressPercent_le_succ i n)
        (jobEventsFrom_chain n (i + 1) (fd2 :: rest))

/-- Exactly one progress event carries 100 percent. -/
theorem jobEventsFrom_filter_100 (n : Nat) (hn : 0 < n) :
    ∀ (i : Nat) (fs : List FrameDet), fs ≠ [] → i + fs.length = n →
      ((jobEventsFrom n i fs).filter
          (fun e => decide (e.progress_percent = 100))).length = 1
  | _, [], hne, _ => absurd rfl hne
  | i, [fd], _, hlen => by
      have hi : i + 1 = n := by simpa using hlen
      have h100 : progressPercent i n = 100 := (progressPercent_eq_100 i n hn).mpr hi
      simp [jobEventsFrom, mkProgressEvent, List.filter, h100]
  | i, fd :: fd2 :: rest, _, hlen => by
      have hlen2 : i + 1 + (fd2 :: rest).length = n := by
        simp at hlen ⊢
        omega
      have hne : ¬ (i + 1 = n) := by
        simp at hlen
        omega
      have h100 : ¬ (progressPercent i n = 100) :=
        fun hh => hne ((progressPercent_eq_100 i n hn).mp hh)
      have ih := jobEventsFrom_filter_100 n hn (i + 1) (fd2 :: rest) (by simp) hlen2
      show ((mkProgressEvent i n fd :: jobEventsFrom n (i + 1) (fd2 :: rest)).filter
          (fun e => decide (e.progress_percent = 100))).length = 1
      rw [List.filter_cons, if_neg (by simpa using h100)]
      exact ih

/-- The last progress event of a non-empty job carries the percentage of its
final frame. -/
theorem jobEventsFrom_getLast (n : Nat) :
    ∀ (i : Nat) (fs : List FrameDet), fs ≠ [] →
      ((jobEventsFrom n i fs).getLast?.map (fun e => e.progress_percent))
        = some (progressPercent (i + fs.length - 1) n)
  | i, [fd], _ => by
      simp [jobEventsFrom, mkProgressEvent]
  | i, fd :: fd2 :: rest, _ => by
      show ((mkProgressEvent i n fd :: (mkProgressEvent (i + 1) n fd2
            :: jobEventsFrom n (i + 2) rest)).getLast?.map
          (fun e => e.progress_percent)) = _
      rw [List.getLast?_cons_cons]
      have ih := jobEventsFrom_getLast n (i + 1) (fd2 :: rest) (by simp)
      rw [show (mkProgressEvent (i + 1) n fd2 :: jobEventsFrom n (i + 2) rest)
            = jobEventsFrom n (i + 1) (fd2 :: rest) from rfl, ih]
      have harg : i + 1 + (fd2 :: rest).length - 1
          = i + (fd :: fd2 :: rest).length - 1 := by
        simp
        omega
      rw [harg]

/-- No progress event of a proper initial segment of the event sequence
carries 100 percent. -/
theorem jobEventsFrom_take_no_100 (n : Nat) :
    ∀ (i : Nat) (fs : List FrameDet) (m : Nat), i + m < n →
      ∀ e ∈ (jobEventsFrom n i fs).take m, e.progress_percent ≠ 100
  | _, [], _, _ => by
      intro e he
      simp [jobEventsFrom] at he
  | _, _ :: _, 0, _ => by
      intro e he
      simp at he
  | i, fd :: rest, m + 1, hlt => by
      intro e he
      rw [show jobEventsFrom n i (fd :: rest)
            = mkProgressEvent i n fd :: jobEventsFrom n (i + 1) rest from rfl,
          List.take_succ_cons] at he
      rcases List.mem_cons.mp he with he | he
      · subst he
        intro hh
        have hi := (progressPercent_eq_100 i n (by omega)).mp hh
        omega
      · exact jobEventsFrom_take_no_100 n (i + 1) rest m (by omega) e he

/-- C4: Across a job's progress events, `progress_percent` is monotonically
non-decreasing and equals 100 at exactly one event, the final one; events
of an aborted run — any proper initial segment of the sequence — never
carry 100, so 100 is reached exactly at successful completion. -/
theorem progressEventsSpec (frames : List FrameDet) (h : frames ≠ []) :
    List.Chain' (fun a b => a.progress_percent ≤ b.progress_percent)
        (jobEvents frames) ∧
    ((jobEvents frames).filter
        (fun e => decide (e.progress_percent = 100))).length = 1 ∧
    ((jobEvents frames).getLast?.map (fun e => e.progress_percent)) = some 100 ∧
    (∀ m, m < frames.length →
        ∀ e ∈ (jobEvents frames).take m, e.progress_percent ≠ 100) := by
  have hn : 0 < frames.length := List.length_pos.mpr h
  refine ⟨jobEventsFrom_chain _ 0 frames,
          jobEventsFrom_filter_100 _ hn 0 frames h (by simp), ?_, ?_⟩
  · rw [jobEvents, jobEventsFrom_getLast _ 0 frames h]
    have h100 : progressPercent (0 + frames.length - 1) frames.length = 100 :=
      (progressPercent_eq_100 _ _ hn).mpr (by omega)
    rw [h100]
  · intro m hm e he
    exact jobEventsFrom_take_no_100 _ 0 frames m (by omega) e he

/-- C4 witness: a two-frame job — percentages 50 then 100, one 100, at the
end, and the one-frame aborted cut has none. -/
theorem progressEventsSpecWitness :
    ([(⟨1, 0⟩ : FrameDet), ⟨0, 2⟩] ≠ []) ∧
    (List.Chain' (fun a b => a.progress_percent ≤ b.progress_percent)
        (jobEvents [⟨1, 0⟩, ⟨0, 2⟩]) ∧
     ((jobEvents [⟨1, 0⟩, ⟨0, 2⟩]).filter
        (fun e => decide (e.progress_percent = 100))).length = 1 ∧
     ((jobEvents [⟨1, 0⟩, ⟨0, 2⟩]).getLast?.map
        (fun e => e.progress_percent)) = some 100 ∧
     (∀ m, m < ([(⟨1, 0⟩ : FrameDet), ⟨0, 2⟩]).length →
        ∀ e ∈ (jobEvents [⟨1, 0⟩, ⟨0, 2⟩]).take m, e.progress_percent ≠ 100)) :=
  ⟨by simp, progressEventsSpec [⟨1, 0⟩, ⟨0, 2⟩] (by simp)⟩

/-- The reorder buffer's release loop establishes the scheduler invariant
whenever it starts from a consistent state with enough fuel. -/
theorem emitLoop_inv (done : Finset Nat) :
    ∀ (fuel : Nat) (s : SchedState), s.buffer.card ≤ fuel →
      s.sunk = List.range s.nextIndex →
      s.buffer = done \ Finset.range s.nextIndex →
      Finset.range s.nextIndex ⊆ done →
      SchedInv done (emitLoop fuel s)
  | 0, s, hcard, hsunk, hbuf, hsub => by
      have hempty : s.buffer = ∅ := Finset.card_eq_zero.mp (Nat.le_zero.mp hcard)
      have hnd : s.nextIndex ∉ done := by
        intro hmem
        have hin : s.nextIndex ∈ s.buffer := by
          rw [hbuf]
          exact Finset.mem_sdiff.mpr ⟨hmem, by simp⟩
        rw [hempty] at hin
        simp at hin
      exact ⟨hsunk, hbuf, hsub, hnd⟩
  | fuel + 1, s, hcard, hsunk, hbuf, hsub => by
      show SchedInv done
        (if s.nextIndex ∈ s.buffer then
          emitLoop fuel
            { nextIndex := s.nextIndex + 1,
              buffer := s.buffer.erase s.nextIndex,
              sunk := s.sunk ++ [s.nextIndex] }
         else s)
      by_cases hmem : s.nextIndex ∈ s.buffer
      · rw [if_pos hmem]
        have hk : s.nextIndex ∈ done := by
          rw [hbuf] at hmem
          exact (Finset.mem_sdiff.mp hmem).1
        refine emitLoop_inv done fuel _ ?_ ?_ ?_ ?_
        · have hc := Finset.card_erase_of_mem hmem
          simp only [hc]
          omega
        · show s.sunk ++ [s.nextIndex] = List.range (s.nextIndex + 1)
          rw [hsunk, List.range_succ]
        · show s.buffer.erase s.nextIndex
              = done \ Finset.range (s.nextIndex + 1)
          rw [hbuf]
          ext a
          simp only [Finset.mem_erase, Finset.mem_sdiff, Finset.mem_range]
          constructor
          · rintro ⟨hne, hd, hr⟩
            exact ⟨hd, by omega⟩
          · rintro ⟨hd, hr⟩
            exact ⟨by omega, hd, by omega⟩
        · show Finset.range (s.nextIndex + 1) ⊆ done
          intro x hx
          rcases Nat.lt_succ_iff_lt_or_eq.mp (Finset.mem_range.mp hx) with hlt | heq
          · exact hsub (Finset.mem_range.mpr hlt)
          · subst heq
            exact hk
      · rw [if_neg hmem]
        have hnd : s.nextIndex ∉ done := by
          intro hd
          exact hmem (by rw [hbuf]; exact Finset.mem_sdiff.mpr ⟨hd, by simp⟩)
        exact ⟨hsunk, hbuf, hsub, hnd⟩

/-- Completing a fresh frame preserves the scheduler invariant, the set of
completed frames growing by that frame's index. -/
theorem completeFrame_inv (done : Finset Nat) (s : SchedState) (i : Nat)
    (hs : SchedInv done s) (hi : i ∉ done) :
    SchedInv (insert i done) (completeFrame s i) := by
  obtain ⟨hsunk, hbuf, hsub, _⟩ := hs
  have hik : ¬ i < s.nextIndex := by
    intro hlt
    exact hi (hsub (Finset.mem_range.mpr hlt))
  show SchedInv (insert i done)
    (emitLoop (insert i s.buffer).card { s with buffer := insert i s.buffer })
  refine emitLoop_inv (insert i done) _ _ le_rfl hsunk ?_ ?_
  · show insert i s.buffer = insert i done \ Finset.range s.nextIndex
    rw [hbuf]
    ext a
    simp only [Finset.mem_insert, Finset.mem_sdiff, Finset.mem_range]
    constructor
    · rintro (rfl | ⟨hd, hr⟩)
      · exact ⟨Or.inl rfl, hik⟩
      · exact ⟨Or.inr hd, hr⟩
    · rintro ⟨rfl | hd, hr⟩
      · exact Or.inl rfl
      · exact Or.inr ⟨hd, hr⟩
  · exact hsub.trans (Finset.subset_insert _ _)

/-- Folding a duplicate-free batch of fresh frame completions preserves the
invariant, completing exactly the batch's indices. -/
theorem runSched_foldl_inv :
    ∀ (order : List Nat) (done : Finset Nat) (s : SchedState),
      order.Nodup → (∀ j ∈ order, j ∉ done) → SchedInv done s →
      SchedInv (done ∪ order.toFinset) (order.foldl completeFrame s)
  | [], done, s, _, _, hs => by
      rw [List.toFinset_nil, Finset.union_empty]
      exact hs
  | i :: rest, done, s, hnd, hfresh, hs => by
      have hi : i ∉ done := hfresh i (List.mem_cons_self i rest)
      have hstep := completeFrame_inv done s i hs hi
      have hir : i ∉ rest := (List.nodup_cons.mp hnd).1
      have hfresh2 : ∀ j ∈ rest, j ∉ insert i done := by
        intro j hj
        simp only [Finset.mem_insert]
        push_neg
        exact ⟨fun e => hir (e ▸ hj), hfresh j (List.mem_cons_of_mem _ hj)⟩
      have ih := runSched_foldl_inv rest (insert i done) (completeFrame s i)
        (List.nodup_cons.mp hnd).2 hfresh2 hstep
      rw [List.foldl_cons]
      have hset : insert i done ∪ rest.toFinset = done ∪ (i :: rest).toFinset := by
        ext a
        simp only [Finset.mem_insert, Finset.mem_union, List.toFinset_cons]
        tauto
      rw [← hset]
      exact ih

/-- C2: For every completion schedule that completes each of the `N` frames
exactly once — whatever the parallelism level P and the detection latency
variance, the workers' finish order is some such permutation — the frame
indices delivered to FrameSink are exactly `0, 1, ..., N-1`: strictly
increasing and contiguous, with no gaps and no repeats. -/
theorem frameSinkOrdering (N : Nat) (order : List Nat)
    (h : order.Perm (List.range N)) :
    (runSched order).sunk = List.range N := by
  have hnd : order.Nodup := h.nodup_iff.mpr (List.nodup_range N)
  have hinv0 : SchedInv ∅ ⟨0, ∅, []⟩ := ⟨by simp, by simp, by simp, by simp⟩
  have hall := runSched_foldl_inv order ∅ ⟨0, ∅, []⟩ hnd (by simp) hinv0
  have htf : (List.range N).toFinset = Finset.range N := by
    ext a
    simp [List.mem_toFinset, List.mem_range, Finset.mem_range]
  rw [Finset.empty_union, List.toFinset_eq_of_perm _ _ h, htf] at hall
  obtain ⟨hsunk, _, hsub, hout⟩ := hall
  have hle : (order.foldl completeFrame ⟨0, ∅, []⟩).nextIndex ≤ N :=
    Finset.range_subset.mp hsub
  have hge : N ≤ (order.foldl completeFrame ⟨0, ∅, []⟩).nextIndex := by
    by_contra hlt
    push_neg at hlt
    exact hout (Finset.mem_range.mpr hlt)
  show (order.foldl completeFrame ⟨0, ∅, []⟩).sunk = List.range N
  rw [hsunk, le_antisymm hle hge]

/-- C2 witness: the out-of-order completion schedule 2, 0, 1 of a
three-frame job still sinks frames as 0, 1, 2. -/
theorem frameSinkOrderingWitness :
    ([2, 0, 1] : List Nat).Perm (List.range 3) ∧
    (runSched [2, 0, 1]).sunk = List.range 3 :=
  ⟨by decide, frameSinkOrdering 3 [2, 0, 1] (by decide)⟩

end Anon
